import Mathlib

/-!
Verification of the shared-memory string cache of
`contrib/roafteriniter/cache.h` (google/cro3).

The cache is a fixed-size memory-mapped region: a packed 16-byte header
(`length`, `count`, both `uint64_t`) followed by a flat arena of
NUL-terminated strings.  We shallowly embed the region state and the
operations `_cache_contains`, `_cache_insert`, `cache_insert`,
`cache_contains`, `cache_notcontains_insert`, `cache_map` (its argument
validation and control flow, with the OS calls abstracted into an
environment of outcomes plus an explicit action trace) and `cache_unmap`.

Bytes are modelled as `Nat` (values < 256 in practice; no arithmetic is
performed on them, only zero-tests and equality, so no width constraint is
needed).  Addresses are 64-bit: the address arithmetic of `_cache_insert`
is carried out modulo `2^64` exactly as the C code does on `uint64_t`.
C strings are modelled as the list of their bytes up to (excluding) the
terminating NUL, hence lists of nonzero bytes; nullable pointers are
`Option`.
-/

set_option autoImplicit false

namespace Cro3Cache

/-- The modulus of `uint64_t` arithmetic, `2^64`. -/
def U64 : Nat := 18446744073709551616

/-- The value of `sizeof(struct cachehdr)`: two packed `uint64_t` fields,
16 bytes. -/
def cachehdrSize : Nat := 16

/-! Return codes from `cache.h`. -/

def CACHE_OP_SUCCESS : Nat := 0
def CACHE_OPEN_FAILED : Nat := 1
def CACHE_FTRUNC_FAILED : Nat := 2
def CACHE_MAP_FAILED : Nat := 4
def CACHE_LOCK_INIT_FAILED : Nat := 8
def CACHE_INSERTION_SUCCESS : Nat := 16
def CACHE_INSERTION_FAILED : Nat := 32
def CACHE_CONTAINS_SUCCESS : Nat := 64
def CACHE_CONTAINS_FAILED : Nat := 128
def CACHE_MUNMAP_FAILED : Nat := 256
def CACHE_CLOSE_FAILED : Nat := 512
def CACHE_SEMCLOSE_FAILED : Nat := 1024
def CACHE_EINVAL : Nat := 2048

/--
One process's view of a mapped cache region (`struct cache` together with
the mapped bytes it points at).

* `base`  — the address `cache->hdr` returned by `mmap`.
* `size`  — `cache->size`, the size in bytes of the whole region.
* `length`, `count` — the two header fields (`cache->hdr->length`,
  `cache->hdr->count`).
* `arena` — the bytes at region offsets `[cachehdrSize, size)`, i.e. the
  bytes `CACHE_DATA(cache)[0 .. size - 16)`.
-/
structure Cache where
  base : Nat
  size : Nat
  length : Nat
  count : Nat
  arena : List Nat
  deriving Repr, DecidableEq

/-- The byte of the arena at offset `p` (reads past the end of the list
yield 0; in-bounds offsets are what the theorems are about). -/
def byteAt (a : List Nat) (p : Nat) : Nat := (a.drop p).headD 0

/-- The run of nonzero bytes starting at arena offset `p`: the C string a
pointer into the arena at offset `p` denotes.  `(itemAt a p).length` is
`strlen` of that pointer. -/
def itemAt (a : List Nat) (p : Nat) : List Nat :=
  (a.drop p).takeWhile (fun b => b != 0)

/--
The scanning loop shared by `_cache_contains` (lines 86–92 of cache.h):

    ptr = CACHE_DATA(cache);
    while (*ptr) {
        if (!strcmp(ptr, item)) return CACHE_CONTAINS_SUCCESS;
        ptr += strlen(ptr) + 1;
    }
    return CACHE_CONTAINS_FAILED;

`p` is the offset of `ptr` from `CACHE_DATA(cache)`.  `strcmp(ptr, item)
== 0` holds exactly when the nonzero run at `p` equals the query's bytes
(queries are NUL-free byte lists).
-/
def containsFrom (a : List Nat) (item : List Nat) (p : Nat) : Nat :=
  if byteAt a p = 0 then CACHE_CONTAINS_FAILED
  else if itemAt a p = item then CACHE_CONTAINS_SUCCESS
  else containsFrom a item (p + (itemAt a p).length + 1)
termination_by a.length - p
decreasing_by
  have hp : p < a.length := by
    by_contra hcon
    have : a.drop p = [] := List.drop_eq_nil_of_le (Nat.le_of_not_lt hcon)
    simp [byteAt, this] at *
  omega

/-- Model of `_cache_contains` (cache.h lines 84–94). -/
def _cache_contains (cache : Cache) (item : List Nat) : Nat :=
  containsFrom cache.arena item 0

/-- The final value of the loop offset of the arena scan: the offset at
which the loop's `while (*ptr)` test reads a zero byte and stops.  This
is the largest arena offset the scan of `_cache_contains` (when no match
stops it early) or of `cache_debug_traverse` dereferences. -/
def scanStop (a : List Nat) (p : Nat) : Nat :=
  if byteAt a p = 0 then p else scanStop a (p + (itemAt a p).length + 1)
termination_by a.length - p
decreasing_by
  have hp : p < a.length := by
    by_contra hcon
    have : a.drop p = [] := List.drop_eq_nil_of_le (Nat.le_of_not_lt hcon)
    simp [byteAt, this] at *
  omega

/-- The items printed by `cache_debug_traverse` (cache.h lines 247–261):
same loop as `_cache_contains`, collecting each run instead of comparing. -/
def traverseFrom (a : List Nat) (p : Nat) : List (List Nat) :=
  if byteAt a p = 0 then []
  else itemAt a p :: traverseFrom a (p + (itemAt a p).length + 1)
termination_by a.length - p
decreasing_by
  have hp : p < a.length := by
    by_contra hcon
    have : a.drop p = [] := List.drop_eq_nil_of_le (Nat.le_of_not_lt hcon)
    simp [byteAt, this] at *
  omega

/-- Model of `strncpy(ptr, s, strlen(s))` at arena offset `p`: overwrite
`s.length` bytes of `a` starting at offset `p` (no terminator byte is
written: `strncpy` with `n = strlen(s)` copies exactly the `n` non-NUL
bytes). -/
def writeBytes (a : List Nat) (p : Nat) (s : List Nat) : List Nat :=
  a.take p ++ s ++ a.drop (p + s.length)

/--
Model of `_cache_insert` (cache.h lines 97–119):

    if ((slen = strlen(str)) == 0) return CACHE_INSERTION_FAILED;
    ptr = CACHE_ENDPTR(cache);                 // hdr + 16 + length
    copyend = (uint64_t)ptr + slen + 1;        // mod 2^64
    copystart = (uint64_t)cache->hdr;
    if ((copyend < copystart) || ((copyend - copystart) > cache->size))
        return CACHE_INSERTION_FAILED;
    strncpy(ptr, str, strlen(str));
    cache->hdr->length += strlen(str) + 1;
    cache->hdr->count += 1;
    return CACHE_INSERTION_SUCCESS;

The header fields are `uint64_t`, so their updates are taken mod `2^64`
like the address computation.  `copyend` is written out in full at each
occurrence (the C code binds it once) to keep the branches plain terms.
-/
def _cache_insert (cache : Cache) (str : List Nat) : Cache × Nat :=
  if str.length = 0 then (cache, CACHE_INSERTION_FAILED)
  else if (cache.base + cachehdrSize + cache.length + str.length + 1) % U64
        < cache.base ∨
      (cache.base + cachehdrSize + cache.length + str.length + 1) % U64
        - cache.base > cache.size then
    (cache, CACHE_INSERTION_FAILED)
  else
    ({ cache with
        arena := writeBytes cache.arena cache.length str,
        length := (cache.length + str.length + 1) % U64,
        count := (cache.count + 1) % U64 },
     CACHE_INSERTION_SUCCESS)

/-- Model of `cache_insert` (cache.h lines 229–240): null-pointer checks,
then the locked `_cache_insert`. -/
def cache_insert (cache : Option Cache) (item : Option (List Nat)) :
    Option Cache × Nat :=
  match cache, item with
  | some c, some s =>
    let r := _cache_insert c s
    (some r.1, r.2)
  | _, _ => (cache, CACHE_EINVAL)

/-- Model of `cache_contains` (cache.h lines 274–285): null-pointer
checks, then the locked `_cache_contains` (which performs no writes, so
only the result code is returned). -/
def cache_contains (cache : Option Cache) (item : Option (List Nat)) : Nat :=
  match cache, item with
  | some c, some s => _cache_contains c s
  | _, _ => CACHE_EINVAL

/-- Model of `cache_notcontains_insert` (cache.h lines 299–311): under
one lock acquisition, `_cache_contains`, and `_cache_insert` only if it
reported `CACHE_CONTAINS_FAILED`. -/
def cache_notcontains_insert (cache : Option Cache) (item : Option (List Nat)) :
    Option Cache × Nat :=
  match cache, item with
  | some c, some s =>
    if _cache_contains c s = CACHE_CONTAINS_FAILED then
      let r := _cache_insert c s
      (some r.1, r.2)
    else
      (some c, _cache_contains c s)
  | _, _ => (cache, CACHE_EINVAL)

/-- The state `cache_map`'s creating path builds (cache.h lines 156–170):
`ftruncate` to `size`, map, `memset(hdr, 0, size)`, `length = 0`,
`count = 0`.  The arena is the `size - 16` zero bytes after the header. -/
def freshCache (size base : Nat) : Cache :=
  { base := base, size := size, length := 0, count := 0,
    arena := List.replicate (size - cachehdrSize) 0 }

/-! ### `cache_map` / `cache_unmap`

The OS interactions of `cache_map` are abstracted into a `MapEnv` of call
outcomes; the model additionally records the I/O actions performed, in
order, so that "fails before any I/O" is expressible. -/

/-- The observable I/O actions of `cache_map`. -/
inductive MapAction where
  | sem_open
  | open_rw
  | open_creat
  | ftruncate_call
  | mmap_call
  | msync_call
  deriving Repr, DecidableEq

/-- Outcomes of the OS calls `cache_map` makes, plus the data an
already-existing backing file would supply. -/
structure MapEnv where
  sem_ok : Bool
  file_exists : Bool
  create_ok : Bool
  ftrunc_ok : Bool
  map_ok : Bool
  base : Nat
  existingLength : Nat
  existingCount : Nat
  existingArena : List Nat
  deriving Repr, DecidableEq

/--
Model of `cache_map` (cache.h lines 137–183).  Returns the result code, the list
of I/O actions performed (in order), and the attached handle on success:

* argument validation: `!cache || !fname || !lockname || size == 0 ||
  (size % 0x1000)` fails with `CACHE_EINVAL` before anything else;
* `sem_open`, then `open(fname, O_RDWR)`; if it succeeds the existing
  file is mapped as-is; otherwise `open(..|O_CREAT)`, `ftruncate`,
  `mmap`, zero-fill and header initialisation (`freshCache`), `msync`.
-/
def cache_map (cache fname lockname : Option Unit) (size : Nat)
    (env : MapEnv) : Nat × List MapAction × Option Cache :=
  if cache = none ∨ fname = none ∨ lockname = none ∨ size = 0 ∨
      size % 4096 ≠ 0 then
    (CACHE_EINVAL, [], none)
  else if env.sem_ok = false then
    (CACHE_LOCK_INIT_FAILED, [MapAction.sem_open], none)
  else if env.file_exists then
    if env.map_ok then
      (CACHE_OP_SUCCESS,
       [MapAction.sem_open, MapAction.open_rw, MapAction.mmap_call],
       some { base := env.base, size := size, length := env.existingLength,
              count := env.existingCount, arena := env.existingArena })
    else
      (CACHE_MAP_FAILED,
       [MapAction.sem_open, MapAction.open_rw, MapAction.mmap_call], none)
  else if env.create_ok then
    if env.ftrunc_ok = false then
      (CACHE_FTRUNC_FAILED,
       [MapAction.sem_open, MapAction.open_rw, MapAction.open_creat,
        MapAction.ftruncate_call], none)
    else if env.map_ok = false then
      (CACHE_MAP_FAILED,
       [MapAction.sem_open, MapAction.open_rw, MapAction.open_creat,
        MapAction.ftruncate_call, MapAction.mmap_call], none)
    else
      (CACHE_OP_SUCCESS,
       [MapAction.sem_open, MapAction.open_rw, MapAction.open_creat,
        MapAction.ftruncate_call, MapAction.mmap_call,
        MapAction.msync_call],
       some (freshCache size env.base))
  else
    (CACHE_OPEN_FAILED,
     [MapAction.sem_open, MapAction.open_rw, MapAction.open_creat], none)

/-- The release actions of `cache_unmap`. -/
inductive UnmapAction where
  | sem_close
  | munmap_call
  | close_call
  deriving Repr, DecidableEq

/-- Outcomes of the three releases `cache_unmap` attempts. -/
structure UnmapEnv where
  sem_close_ok : Bool
  munmap_ok : Bool
  close_ok : Bool
  deriving Repr, DecidableEq

/-- Model of `cache_unmap` (cache.h lines 199–216): `CACHE_EINVAL` on a null
handle; otherwise all three releases are attempted independently and the
failure flags are OR-ed together. -/
def cache_unmap (cache : Option Cache) (env : UnmapEnv) :
    Nat × List UnmapAction :=
  match cache with
  | none => (CACHE_EINVAL, [])
  | some _ =>
    ((if env.sem_close_ok then 0 else CACHE_SEMCLOSE_FAILED) |||
     (if env.munmap_ok then 0 else CACHE_MUNMAP_FAILED) |||
     (if env.close_ok then 0 else CACHE_CLOSE_FAILED),
     [UnmapAction.sem_close, UnmapAction.munmap_call, UnmapAction.close_call])

/-! ### Reachable states

A ghost list `ls` of the strings successfully appended so far accompanies
each reachable state.  Insert steps carry the constraints that make the
call realizable on a 64-bit machine: the string is a genuine C string
(nonzero bytes), and the string (with its terminator) and the mapped
region cannot jointly exhaust the whole `2^64`-byte address space. -/

/-- Number of arena bytes a list of stored items occupies:
`Σ (strlen + 1)`. -/
def occupied (ls : List (List Nat)) : Nat :=
  (ls.map (fun s => s.length + 1)).sum

/-- The arena image of a list of stored items: each item's bytes followed
by its NUL terminator, packed back to back. -/
def packItems (ls : List (List Nat)) : List Nat :=
  ls.foldr (fun s acc => s ++ 0 :: acc) []

/-- A well-formed stored item: a nonempty NUL-free byte string. -/
def goodItem (s : List Nat) : Prop := s ≠ [] ∧ ∀ b ∈ s, b ≠ 0

/-- The full representation invariant tying a cache state to the list of
strings successfully appended to it. -/
def GoodState (c : Cache) (ls : List (List Nat)) : Prop :=
  0 < c.base ∧
  c.base + c.size ≤ U64 ∧
  cachehdrSize ≤ c.size ∧
  c.length = occupied ls ∧
  c.count = ls.length ∧
  c.length ≤ c.size - cachehdrSize ∧
  (∀ s ∈ ls, goodItem s) ∧
  c.arena = packItems ls ++
    List.replicate (c.size - cachehdrSize - occupied ls) 0

/-- States reachable from a freshly created region through the public
insert operation, together with the list of successfully appended
strings.  (`_cache_contains` and the traversal perform no writes, so they
add no transitions.) -/
inductive Reach : Cache → List (List Nat) → Prop where
  | init (size base : Nat) (hsz : size ≠ 0) (hpg : size % 4096 = 0)
      (hb : 0 < base) (hspace : base + size ≤ U64) :
      Reach (freshCache size base) []
  | insOk {c : Cache} {ls : List (List Nat)} (s : List Nat)
      (hz : ∀ b ∈ s, b ≠ 0) (hfit : s.length + 1 + c.size < U64)
      (hR : Reach c ls)
      (hok : (_cache_insert c s).2 = CACHE_INSERTION_SUCCESS) :
      Reach (_cache_insert c s).1 (ls ++ [s])
  | insFail {c : Cache} {ls : List (List Nat)} (s : List Nat)
      (hz : ∀ b ∈ s, b ≠ 0) (hfit : s.length + 1 + c.size < U64)
      (hR : Reach c ls)
      (hbad : (_cache_insert c s).2 ≠ CACHE_INSERTION_SUCCESS) :
      Reach (_cache_insert c s).1 ls

/-! ### Basic byte-level lemmas -/

theorem byteAt_lt_length {a : List Nat} {p : Nat} (h : byteAt a p ≠ 0) :
    p < a.length := by
  by_contra hcon
  have hnil : a.drop p = [] := List.drop_eq_nil_of_le (Nat.le_of_not_lt hcon)
  simp [byteAt, hnil] at h

theorem byteAt_eq_getD (a : List Nat) (p : Nat) : byteAt a p = a.getD p 0 := by
  induction a generalizing p with
  | nil => simp [byteAt]
  | cons b t ih =>
    cases p with
    | zero => simp [byteAt]
    | succ q => simp [byteAt, List.getD_cons_succ, ih q]

theorem drop_append_len (x l : List Nat) (p : Nat) :
    (x ++ l).drop (x.length + p) = l.drop p := by
  induction x with
  | nil => simp
  | cons b t ih => simp [Nat.succ_add, ih]

theorem byteAt_append_add (x l : List Nat) (p : Nat) :
    byteAt (x ++ l) (x.length + p) = byteAt l p := by
  simp [byteAt, drop_append_len]

theorem itemAt_append_add (x l : List Nat) (p : Nat) :
    itemAt (x ++ l) (x.length + p) = itemAt l p := by
  simp [itemAt, drop_append_len]

theorem byteAt_append_lt {x : List Nat} (l : List Nat) {p : Nat}
    (h : p < x.length) : byteAt (x ++ l) p = byteAt x p := by
  induction x generalizing p with
  | nil => simp at h
  | cons b t ih =>
    cases p with
    | zero => simp [byteAt]
    | succ q =>
      have : q < t.length := by simpa using h
      simpa [byteAt] using ih this

theorem byteAt_replicate_zero (z p : Nat) :
    byteAt (List.replicate z 0) p = 0 := by
  induction z generalizing p with
  | zero => simp [byteAt]
  | succ n ih =>
    cases p with
    | zero => simp [byteAt, List.replicate_succ]
    | succ q => simpa [byteAt, List.replicate_succ] using ih q

theorem itemAt_ne_nil {a : List Nat} {p : Nat} (h : byteAt a p ≠ 0) :
    itemAt a p ≠ [] := by
  rcases e : a.drop p with _ | ⟨b, t⟩
  · simp [byteAt, e] at h
  · have hb : b ≠ 0 := by simpa [byteAt, e] using h
    simp [itemAt, e, List.takeWhile_cons, hb]

theorem itemAt_append_zero {t : List Nat} (r : List Nat)
    (hz : ∀ b ∈ t, b ≠ 0) : itemAt (t ++ 0 :: r) 0 = t := by
  induction t with
  | nil => simp [itemAt]
  | cons b t ih =>
    have hb : b ≠ 0 := hz b (List.mem_cons_self b t)
    have ht : ∀ x ∈ t, x ≠ 0 := fun x hx => hz x (List.mem_cons_of_mem b hx)
    have := ih ht
    simp only [itemAt, List.drop_zero] at this ⊢
    simp [List.takeWhile_cons, hb, this]

/-! ### Unfolding lemmas for the scan loop

The scan functions are defined by well-founded recursion, so the kernel
does not unfold them definitionally; these equations drive both the
inductive proofs and the concrete evaluations. -/

theorem containsFrom_stop {a item : List Nat} {p : Nat}
    (h : byteAt a p = 0) : containsFrom a item p = CACHE_CONTAINS_FAILED := by
  rw [containsFrom]
  simp [h]

theorem containsFrom_hit {a item : List Nat} {p : Nat}
    (h : ¬ byteAt a p = 0) (he : itemAt a p = item) :
    containsFrom a item p = CACHE_CONTAINS_SUCCESS := by
  rw [containsFrom]
  simp [h, he]

theorem containsFrom_miss {a item : List Nat} {p : Nat}
    (h : ¬ byteAt a p = 0) (he : ¬ itemAt a p = item) :
    containsFrom a item p =
      containsFrom a item (p + (itemAt a p).length + 1) := by
  rw [containsFrom]
  simp [h, he]

theorem scanStop_stop {a : List Nat} {p : Nat} (h : byteAt a p = 0) :
    scanStop a p = p := by
  rw [scanStop]
  simp [h]

theorem scanStop_step {a : List Nat} {p : Nat} (h : ¬ byteAt a p = 0) :
    scanStop a p = scanStop a (p + (itemAt a p).length + 1) := by
  rw [scanStop]
  simp [h]

theorem traverseFrom_stop {a : List Nat} {p : Nat} (h : byteAt a p = 0) :
    traverseFrom a p = [] := by
  rw [traverseFrom]
  simp [h]

theorem traverseFrom_step {a : List Nat} {p : Nat} (h : ¬ byteAt a p = 0) :
    traverseFrom a p =
      itemAt a p :: traverseFrom a (p + (itemAt a p).length + 1) := by
  rw [traverseFrom]
  simp [h]

/-! ### Shift lemmas: a scan started past a prefix only sees the suffix -/

theorem containsFrom_shift (x l item : List Nat) (p : Nat) :
    containsFrom (x ++ l) item (x.length + p) = containsFrom l item p := by
  by_cases h0 : byteAt l p = 0
  · rw [containsFrom_stop (by rwa [byteAt_append_add]),
      containsFrom_stop h0]
  · by_cases he : itemAt l p = item
    · rw [containsFrom_hit (by rwa [byteAt_append_add])
        (by rwa [itemAt_append_add]), containsFrom_hit h0 he]
    · rw [containsFrom_miss (by rwa [byteAt_append_add])
        (by rwa [itemAt_append_add]), itemAt_append_add]
      have harr : x.length + p + (itemAt l p).length + 1 =
          x.length + (p + (itemAt l p).length + 1) := by omega
      rw [harr, containsFrom_shift x l item (p + (itemAt l p).length + 1),
        containsFrom_miss h0 he]
termination_by l.length - p
decreasing_by
  have := byteAt_lt_length h0
  omega

theorem scanStop_shift (x l : List Nat) (p : Nat) :
    scanStop (x ++ l) (x.length + p) = x.length + scanStop l p := by
  by_cases h0 : byteAt l p = 0
  · rw [scanStop_stop (by rwa [byteAt_append_add]), scanStop_stop h0]
  · rw [scanStop_step (by rwa [byteAt_append_add]), itemAt_append_add]
    have harr : x.length + p + (itemAt l p).length + 1 =
        x.length + (p + (itemAt l p).length + 1) := by omega
    rw [harr, scanStop_shift x l (p + (itemAt l p).length + 1),
      scanStop_step h0]
termination_by l.length - p
decreasing_by
  have := byteAt_lt_length h0
  omega

theorem traverseFrom_shift (x l : List Nat) (p : Nat) :
    traverseFrom (x ++ l) (x.length + p) = traverseFrom l p := by
  by_cases h0 : byteAt l p = 0
  · rw [traverseFrom_stop (by rwa [byteAt_append_add]),
      traverseFrom_stop h0]
  · rw [traverseFrom_step (by rwa [byteAt_append_add]), itemAt_append_add]
    have harr : x.length + p + (itemAt l p).length + 1 =
        x.length + (p + (itemAt l p).length + 1) := by omega
    rw [harr, traverseFrom_shift x l (p + (itemAt l p).length + 1),
      traverseFrom_step h0]
termination_by l.length - p
decreasing_by
  have := byteAt_lt_length h0
  omega

theorem containsFrom_empty_query (a : List Nat) (p : Nat) :
    containsFrom a [] p = CACHE_CONTAINS_FAILED := by
  by_cases h0 : byteAt a p = 0
  · exact containsFrom_stop h0
  · rw [containsFrom_miss h0 (itemAt_ne_nil h0)]
    exact containsFrom_empty_query a (p + (itemAt a p).length + 1)
termination_by a.length - p
decreasing_by
  have := byteAt_lt_length h0
  omega

/-! ### Lemmas about the packed-arena representation -/

theorem packItems_nil : packItems [] = [] := rfl

theorem packItems_cons (s : List Nat) (ls : List (List Nat)) :
    packItems (s :: ls) = s ++ 0 :: packItems ls := rfl

theorem occupied_nil : occupied [] = 0 := rfl

theorem occupied_cons (s : List Nat) (ls : List (List Nat)) :
    occupied (s :: ls) = s.length + 1 + occupied ls := by
  simp [occupied]

theorem occupied_snoc (ls : List (List Nat)) (s : List Nat) :
    occupied (ls ++ [s]) = occupied ls + (s.length + 1) := by
  simp [occupied]

theorem packItems_length (ls : List (List Nat)) :
    (packItems ls).length = occupied ls := by
  induction ls with
  | nil => rfl
  | cons t ls ih => simp [packItems_cons, occupied_cons, ih]; omega

theorem packItems_snoc (ls : List (List Nat)) (s : List Nat) :
    packItems (ls ++ [s]) = packItems ls ++ (s ++ [0]) := by
  induction ls with
  | nil => rfl
  | cons t ls ih => simp [packItems_cons, ih]

theorem length_le_occupied (ls : List (List Nat)) :
    ls.length ≤ occupied ls := by
  induction ls with
  | nil => simp [occupied_nil]
  | cons t ls ih => rw [occupied_cons]; simp; omega

theorem packed_regroup (t : List Nat) (ls : List (List Nat)) (z : Nat) :
    packItems (t :: ls) ++ List.replicate z 0 =
      (t ++ [0]) ++ (packItems ls ++ List.replicate z 0) := by
  simp [packItems_cons]

theorem byteAt_packed_head {t : List Nat} (rest : List Nat)
    (htne : t ≠ []) (htz : ∀ b ∈ t, b ≠ 0) :
    byteAt (t ++ 0 :: rest) 0 ≠ 0 := by
  obtain ⟨b, t', rfl⟩ := List.exists_cons_of_ne_nil htne
  have : byteAt ((b :: t') ++ 0 :: rest) 0 = b := rfl
  rw [this]
  exact htz b (List.mem_cons_self b t')

theorem containsFrom_packed (ls : List (List Nat)) (z : Nat) (q : List Nat)
    (h : ∀ s ∈ ls, goodItem s) :
    containsFrom (packItems ls ++ List.replicate z 0) q 0 =
      if q ∈ ls then CACHE_CONTAINS_SUCCESS else CACHE_CONTAINS_FAILED := by
  induction ls with
  | nil =>
    rw [packItems_nil, List.nil_append,
      containsFrom_stop (byteAt_replicate_zero z 0)]
    simp
  | cons t ls ih =>
    obtain ⟨htne, htz⟩ := h t (List.mem_cons_self t ls)
    have hrest : ∀ s ∈ ls, goodItem s :=
      fun s hs => h s (List.mem_cons_of_mem t hs)
    rw [packItems_cons, List.append_assoc, List.cons_append]
    have hb0 : byteAt (t ++ 0 :: (packItems ls ++ List.replicate z 0)) 0 ≠ 0 :=
      byteAt_packed_head _ htne htz
    have hit : itemAt (t ++ 0 :: (packItems ls ++ List.replicate z 0)) 0 = t :=
      itemAt_append_zero _ htz
    by_cases hq : t = q
    · rw [containsFrom_hit hb0 (hit.trans hq)]
      have hqm : q ∈ t :: ls := by
        rw [← hq]
        exact List.mem_cons_self t ls
      rw [if_pos hqm]
    · rw [containsFrom_miss hb0 (fun hc => hq ((hit.symm.trans hc)))]
      rw [hit]
      have hre : t ++ 0 :: (packItems ls ++ List.replicate z 0) =
          (t ++ [0]) ++ (packItems ls ++ List.replicate z 0) := by simp
      have hpos : 0 + t.length + 1 = (t ++ [0]).length + 0 := by simp
      rw [hre, hpos, containsFrom_shift, ih hrest]
      have hm : (q ∈ t :: ls) ↔ (q ∈ ls) := by
        constructor
        · intro hmem
          rcases List.mem_cons.mp hmem with he | hmem2
          · exact absurd he.symm hq
          · exact hmem2
        · exact fun hmem => List.mem_cons_of_mem t hmem
      simp only [hm]

theorem scanStop_packed (ls : List (List Nat)) (z : Nat)
    (h : ∀ s ∈ ls, goodItem s) :
    scanStop (packItems ls ++ List.replicate z 0) 0 = occupied ls := by
  induction ls with
  | nil =>
    rw [packItems_nil, List.nil_append,
      scanStop_stop (byteAt_replicate_zero z 0), occupied_nil]
  | cons t ls ih =>
    obtain ⟨htne, htz⟩ := h t (List.mem_cons_self t ls)
    have hrest : ∀ s ∈ ls, goodItem s :=
      fun s hs => h s (List.mem_cons_of_mem t hs)
    rw [packItems_cons, List.append_assoc, List.cons_append]
    have hb0 : byteAt (t ++ 0 :: (packItems ls ++ List.replicate z 0)) 0 ≠ 0 :=
      byteAt_packed_head _ htne htz
    have hit : itemAt (t ++ 0 :: (packItems ls ++ List.replicate z 0)) 0 = t :=
      itemAt_append_zero _ htz
    rw [scanStop_step hb0, hit]
    have hre : t ++ 0 :: (packItems ls ++ List.replicate z 0) =
        (t ++ [0]) ++ (packItems ls ++ List.replicate z 0) := by simp
    have hpos : 0 + t.length + 1 = (t ++ [0]).length + 0 := by simp
    rw [hre, hpos, scanStop_shift, ih hrest, occupied_cons]
    simp

theorem traverseFrom_packed (ls : List (List Nat)) (z : Nat)
    (h : ∀ s ∈ ls, goodItem s) :
    traverseFrom (packItems ls ++ List.replicate z 0) 0 = ls := by
  induction ls with
  | nil =>
    rw [packItems_nil, List.nil_append,
      traverseFrom_stop (byteAt_replicate_zero z 0)]
  | cons t ls ih =>
    obtain ⟨htne, htz⟩ := h t (List.mem_cons_self t ls)
    have hrest : ∀ s ∈ ls, goodItem s :=
      fun s hs => h s (List.mem_cons_of_mem t hs)
    rw [packItems_cons, List.append_assoc, List.cons_append]
    have hb0 : byteAt (t ++ 0 :: (packItems ls ++ List.replicate z 0)) 0 ≠ 0 :=
      byteAt_packed_head _ htne htz
    have hit : itemAt (t ++ 0 :: (packItems ls ++ List.replicate z 0)) 0 = t :=
      itemAt_append_zero _ htz
    rw [traverseFrom_step hb0, hit]
    have hre : t ++ 0 :: (packItems ls ++ List.replicate z 0) =
        (t ++ [0]) ++ (packItems ls ++ List.replicate z 0) := by simp
    have hpos : 0 + t.length + 1 = (t ++ [0]).length + 0 := by simp
    rw [hre, hpos, traverseFrom_shift, ih hrest]

/-! ### Characterisation of the insert path -/

theorem insert_code_or (c : Cache) (s : List Nat) :
    (_cache_insert c s).2 = CACHE_INSERTION_SUCCESS ∨
      (_cache_insert c s).2 = CACHE_INSERTION_FAILED := by
  unfold _cache_insert
  split
  · exact Or.inr rfl
  · split
    · exact Or.inr rfl
    · exact Or.inl rfl

theorem insert_fail_state {c : Cache} {s : List Nat}
    (h : (_cache_insert c s).2 ≠ CACHE_INSERTION_SUCCESS) :
    (_cache_insert c s).1 = c := by
  revert h
  unfold _cache_insert
  split
  · intro _
    rfl
  · split
    · intro _
      rfl
    · intro h
      exact absurd rfl h

/-- The exact success condition of `_cache_insert`, in wrap-free terms,
for any state whose mapping is realizable (`0 < base`,
`base + size ≤ 2^64`, header fits) and any string that can coexist with
the mapping in a 64-bit address space (`s.length + 1 + size < 2^64`;
the string, its terminator and the region are disjoint memory, and at
least one more byte of the process exists outside them). -/
theorem insert_code_iff (c : Cache) (s : List Nat) (hb : 0 < c.base)
    (hbs : c.base + c.size ≤ U64) (hl : c.length + cachehdrSize ≤ c.size)
    (hfit : s.length + 1 + c.size < U64) :
    (_cache_insert c s).2 = CACHE_INSERTION_SUCCESS ↔
      (s.length ≠ 0 ∧
       c.base + cachehdrSize + c.length + s.length + 1 < U64 ∧
       cachehdrSize + c.length + s.length + 1 ≤ c.size) := by
  unfold _cache_insert
  unfold U64 at *
  unfold cachehdrSize at *
  split
  · constructor
    · intro hcode
      have hcode' : CACHE_INSERTION_FAILED = CACHE_INSERTION_SUCCESS := hcode
      exact absurd hcode' (by decide)
    · intro ⟨hne, _, _⟩
      omega
  · split
    · constructor
      · intro hcode
        have hcode' : CACHE_INSERTION_FAILED = CACHE_INSERTION_SUCCESS := hcode
        exact absurd hcode' (by decide)
      · intro ⟨hne, h1, h2⟩
        omega
    · constructor
      · intro _
        refine ⟨by omega, ?_, ?_⟩ <;> omega
      · intro _
        rfl

/-- On the success path, the new state in wrap-free terms (the `length`
update cannot overflow `uint64_t` under the same realizability bounds). -/
theorem insert_ok_state (c : Cache) (s : List Nat) (hb : 0 < c.base)
    (hbs : c.base + c.size ≤ U64) (hl : c.length + cachehdrSize ≤ c.size)
    (hfit : s.length + 1 + c.size < U64)
    (hok : (_cache_insert c s).2 = CACHE_INSERTION_SUCCESS) :
    (_cache_insert c s).1 =
      { base := c.base, size := c.size, length := c.length + s.length + 1,
        count := (c.count + 1) % U64,
        arena := writeBytes c.arena c.length s } := by
  have hcond := (insert_code_iff c s hb hbs hl hfit).mp hok
  unfold _cache_insert
  unfold U64 at *
  unfold cachehdrSize at *
  split
  · omega
  · split
    · rename_i hguard
      omega
    · have hmod : (c.length + s.length + 1) % 18446744073709551616 =
          c.length + s.length + 1 := Nat.mod_eq_of_lt (by omega)
      simp [hmod]

/-! ### The representation invariant and reachability -/

theorem goodState_fresh (size base : Nat) (hsz : size ≠ 0)
    (hpg : size % 4096 = 0) (hb : 0 < base) (hspace : base + size ≤ U64) :
    GoodState (freshCache size base) [] := by
  have h4096 : 4096 ≤ size := Nat.le_of_dvd (Nat.pos_of_ne_zero hsz)
    (Nat.dvd_of_mod_eq_zero hpg)
  refine ⟨hb, ?_, ?_, ?_, ?_, ?_, ?_, ?_⟩ <;>
    simp [freshCache, cachehdrSize, occupied_nil, packItems_nil] <;>
    omega

theorem goodState_insert_ok {c : Cache} {ls : List (List Nat)}
    {s : List Nat} (G : GoodState c ls) (hz : ∀ b ∈ s, b ≠ 0)
    (hfit : s.length + 1 + c.size < U64)
    (hok : (_cache_insert c s).2 = CACHE_INSERTION_SUCCESS) :
    GoodState (_cache_insert c s).1 (ls ++ [s]) := by
  obtain ⟨hb, hbs, hhdr, hlen, hcount, hbound, hitems, harena⟩ := G
  have hl : c.length + cachehdrSize ≤ c.size := by omega
  obtain ⟨hne, hwrapfree, hfits⟩ := (insert_code_iff c s hb hbs hl hfit).mp hok
  have hpacklen := packItems_length ls
  have hoccb : occupied ls ≤ c.size - cachehdrSize := hlen ▸ hbound
  obtain ⟨z, hzeq⟩ : ∃ z, c.size - cachehdrSize - occupied ls =
      z + (s.length + 1) :=
    ⟨c.size - cachehdrSize - occupied ls - (s.length + 1), by omega⟩
  rw [insert_ok_state c s hb hbs hl hfit hok]
  have hcnt : (c.count + 1) % U64 = (ls ++ [s]).length := by
    have hls : ls.length ≤ occupied ls := length_le_occupied ls
    have hsmall : c.count + 1 < U64 := by
      unfold U64 at *
      unfold cachehdrSize at *
      omega
    rw [Nat.mod_eq_of_lt hsmall, hcount]
    simp
  refine ⟨hb, hbs, hhdr, ?_, ?_, ?_, ?_, ?_⟩
  · simp only
    rw [occupied_snoc, hlen]
    omega
  · exact hcnt
  · simp only
    omega
  · intro t ht
    rcases List.mem_append.mp ht with hmem | hmem
    · exact hitems t hmem
    · have hts : t = s := by simpa using hmem
      subst hts
      refine ⟨?_, hz⟩
      intro hnil
      rw [hnil] at hne
      simp at hne
  · simp only
    rw [harena, hlen, writeBytes, hzeq]
    rw [packItems_snoc, occupied_snoc]
    rw [show c.size - cachehdrSize - (occupied ls + (s.length + 1)) = z from
      by omega]
    rw [show occupied ls = (packItems ls).length from hpacklen.symm]
    rw [List.take_left, drop_append_len, List.drop_replicate]
    rw [show z + (s.length + 1) - s.length = z + 1 from by omega]
    rw [List.replicate_succ]
    simp

theorem reach_good {c : Cache} {ls : List (List Nat)} (h : Reach c ls) :
    GoodState c ls := by
  induction h with
  | init size base hsz hpg hb hspace => exact goodState_fresh size base hsz hpg hb hspace
  | insOk s hz hfit hR hok ih => exact goodState_insert_ok ih hz hfit hok
  | insFail s hz hfit hR hbad ih =>
    rw [insert_fail_state hbad]
    exact ih

/-! ### The scan on a good state -/

theorem contains_good {c : Cache} {ls : List (List Nat)}
    (G : GoodState c ls) (q : List Nat) :
    _cache_contains c q =
      if q ∈ ls then CACHE_CONTAINS_SUCCESS else CACHE_CONTAINS_FAILED := by
  obtain ⟨-, -, -, -, -, -, hitems, harena⟩ := G
  rw [_cache_contains, harena]
  exact containsFrom_packed ls _ q hitems

theorem scanStop_good {c : Cache} {ls : List (List Nat)}
    (G : GoodState c ls) : scanStop c.arena 0 = c.length := by
  obtain ⟨-, -, -, hlen, -, -, hitems, harena⟩ := G
  rw [harena, scanStop_packed ls _ hitems, hlen]

theorem traverse_good {c : Cache} {ls : List (List Nat)}
    (G : GoodState c ls) : traverseFrom c.arena 0 = ls := by
  obtain ⟨-, -, -, -, -, -, hitems, harena⟩ := G
  rw [harena, traverseFrom_packed ls _ hitems]

theorem goodState_arena_length {c : Cache} {ls : List (List Nat)}
    (G : GoodState c ls) : c.arena.length = c.size - cachehdrSize := by
  obtain ⟨-, -, -, hlen, -, hbound, -, harena⟩ := G
  have hoccb : occupied ls ≤ c.size - cachehdrSize := hlen ▸ hbound
  rw [harena]
  simp [packItems_length]
  omega

theorem byteAt_good_zero {c : Cache} {ls : List (List Nat)}
    (G : GoodState c ls) {i : Nat} (hi : c.length ≤ i) :
    byteAt c.arena i = 0 := by
  obtain ⟨-, -, -, hlen, -, -, -, harena⟩ := G
  rw [harena]
  have hpacklen : (packItems ls).length = occupied ls := packItems_length ls
  have : i = (packItems ls).length + (i - occupied ls) := by omega
  rw [this, byteAt_append_add]
  exact byteAt_replicate_zero _ _

/-! ### Concrete states for the counterexamples

A store of the minimum legal region size (`0x1000` bytes, so a
4080-byte arena) into which one long string has been inserted:
`s4078` leaves exactly one free arena byte, `s4079` fills the arena to
exactly its capacity. -/

/-- A 4078-byte string of `'a'` bytes. -/
def s4078 : List Nat := List.replicate 4078 97

/-- A 4079-byte string of `'a'` bytes. -/
def s4079 : List Nat := List.replicate 4079 97

/-- The store after inserting `s4078` into a fresh 4096-byte region:
`length = 4079`, one arena byte left. -/
def cNearFull : Cache := (_cache_insert (freshCache 4096 1) s4078).1

/-- The store after inserting `s4079` into a fresh 4096-byte region:
`length = 4080 = 4096 - 16`, the arena is exactly full. -/
def cExactFull : Cache := (_cache_insert (freshCache 4096 1) s4079).1

theorem freshCache_base (size base : Nat) :
    (freshCache size base).base = base := rfl

theorem freshCache_size (size base : Nat) :
    (freshCache size base).size = size := rfl

theorem freshCache_length (size base : Nat) :
    (freshCache size base).length = 0 := rfl

theorem freshCache_count (size base : Nat) :
    (freshCache size base).count = 0 := rfl

theorem s4078_length : s4078.length = 4078 := by
  rw [s4078, List.length_replicate]

theorem s4079_length : s4079.length = 4079 := by
  rw [s4079, List.length_replicate]

theorem reach_fresh_4096 : Reach (freshCache 4096 1) [] :=
  Reach.init 4096 1 (by decide) (by decide) (by decide) (by decide)

theorem s4078_nonzero : ∀ b ∈ s4078, b ≠ 0 := by
  intro b hb
  rw [s4078] at hb
  rw [List.eq_of_mem_replicate hb]
  decide

theorem s4079_nonzero : ∀ b ∈ s4079, b ≠ 0 := by
  intro b hb
  rw [s4079] at hb
  rw [List.eq_of_mem_replicate hb]
  decide

theorem s4078_fit : s4078.length + 1 + (freshCache 4096 1).size < U64 := by
  rw [s4078_length]
  decide

theorem s4079_fit : s4079.length + 1 + (freshCache 4096 1).size < U64 := by
  rw [s4079_length]
  decide

theorem s4078_insert_ok :
    (_cache_insert (freshCache 4096 1) s4078).2 = CACHE_INSERTION_SUCCESS := by
  refine (insert_code_iff _ _ ?_ ?_ ?_ s4078_fit).mpr ⟨?_, ?_, ?_⟩
  · decide
  · decide
  · decide
  · rw [s4078_length]
    decide
  · rw [s4078_length]
    decide
  · rw [s4078_length]
    decide

theorem s4079_insert_ok :
    (_cache_insert (freshCache 4096 1) s4079).2 = CACHE_INSERTION_SUCCESS := by
  refine (insert_code_iff _ _ ?_ ?_ ?_ s4079_fit).mpr ⟨?_, ?_, ?_⟩
  · decide
  · decide
  · decide
  · rw [s4079_length]
    decide
  · rw [s4079_length]
    decide
  · rw [s4079_length]
    decide

theorem reach_cNearFull : Reach cNearFull [s4078] := by
  have h := Reach.insOk s4078 s4078_nonzero s4078_fit reach_fresh_4096
    s4078_insert_ok
  rw [cNearFull]
  simpa using h

theorem reach_cExactFull : Reach cExactFull [s4079] := by
  have h := Reach.insOk s4079 s4079_nonzero s4079_fit reach_fresh_4096
    s4079_insert_ok
  rw [cExactFull]
  simpa using h

theorem cNearFull_eq : cNearFull =
    { base := 1, size := 4096, length := 4079, count := 1,
      arena := writeBytes (freshCache 4096 1).arena 0 s4078 } := by
  rw [cNearFull, insert_ok_state _ _ (by decide) (by decide) (by decide)
    s4078_fit s4078_insert_ok]
  rw [freshCache_base, freshCache_size, freshCache_length, freshCache_count,
    s4078_length]
  norm_num [U64]

theorem cExactFull_eq : cExactFull =
    { base := 1, size := 4096, length := 4080, count := 1,
      arena := writeBytes (freshCache 4096 1).arena 0 s4079 } := by
  rw [cExactFull, insert_ok_state _ _ (by decide) (by decide) (by decide)
    s4079_fit s4079_insert_ok]
  rw [freshCache_base, freshCache_size, freshCache_length, freshCache_count,
    s4079_length]
  norm_num [U64]

theorem cNearFull_base : cNearFull.base = 1 := by rw [cNearFull_eq]

theorem cNearFull_size : cNearFull.size = 4096 := by rw [cNearFull_eq]

theorem cNearFull_length : cNearFull.length = 4079 := by rw [cNearFull_eq]

theorem cNearFull_count : cNearFull.count = 1 := by rw [cNearFull_eq]

theorem ab_not_in_cNearFull : ([97, 98] : List Nat) ∉ [s4078] := by
  intro hmem
  have heq : ([97, 98] : List Nat) = s4078 := by simpa using hmem
  have hlen := congrArg List.length heq
  rw [s4078_length] at hlen
  simp at hlen

theorem ab_insert_cNearFull_fails :
    (_cache_insert cNearFull [97, 98]).2 ≠ CACHE_INSERTION_SUCCESS := by
  intro hok
  have hcond := (insert_code_iff cNearFull [97, 98]
    (by rw [cNearFull_base]; decide)
    (by rw [cNearFull_base, cNearFull_size]; decide)
    (by rw [cNearFull_length, cNearFull_size]; decide)
    (by rw [cNearFull_size]; decide)).mp hok
  rw [cNearFull_length, cNearFull_size] at hcond
  obtain ⟨-, -, h3⟩ := hcond
  rw [show ([97, 98] : List Nat).length = 2 from rfl] at h3
  simp only [cachehdrSize] at h3
  omega

/-! ### Claim C1 -/

/-- C1: in every store state reachable from a freshly created region by
the public operations, every arena byte from offset `length` on (hence to
the end of the region) is zero, `length ≤ region_size - header_size`,
and `count` equals the number of strings successfully appended (the ghost
list of `Reach`); creation establishes this and every insert preserves
it (by the induction over `Reach`). -/
theorem C1_zero_fill_invariant (c : Cache) (ls : List (List Nat))
    (hR : Reach c ls) :
    (∀ i, c.length ≤ i → byteAt c.arena i = 0) ∧
    c.length ≤ c.size - cachehdrSize ∧
    c.count = ls.length := by
  have G := reach_good hR
  refine ⟨fun i hi => byteAt_good_zero G hi, ?_, ?_⟩
  · exact G.2.2.2.2.2.1
  · exact G.2.2.2.2.1

theorem C1_zero_fill_invariant_witness :
    Reach (freshCache 4096 1) [] ∧
    ((freshCache 4096 1).length ≤ (freshCache 4096 1).size - cachehdrSize ∧
     (freshCache 4096 1).count = ([] : List (List Nat)).length) :=
  ⟨reach_fresh_4096, (C1_zero_fill_invariant _ _ reach_fresh_4096).2⟩

/-! ### Claim C2 (corrected: the insert can be rejected for capacity) -/

/-- C2 (amended): for a reachable state and a non-empty NUL-free string
`s` not among the stored items, `contains` is not-found before the
insert; and, provided the insert succeeds (the string fits), `contains`
is found afterwards and `count` increases by exactly 1.  The unamended
claim, which promises found-afterwards unconditionally, fails when the
insert is rejected for capacity (see the counterexample). -/
theorem C2_contains_insert (c : Cache) (ls : List (List Nat)) (s : List Nat)
    (hR : Reach c ls) (hz : ∀ b ∈ s, b ≠ 0) (_hne : s ≠ [])
    (hnotin : s ∉ ls) (hfit : s.length + 1 + c.size < U64) :
    _cache_contains c s = CACHE_CONTAINS_FAILED ∧
    ((_cache_insert c s).2 = CACHE_INSERTION_SUCCESS →
      _cache_contains (_cache_insert c s).1 s = CACHE_CONTAINS_SUCCESS ∧
      (_cache_insert c s).1.count = c.count + 1) := by
  have G := reach_good hR
  constructor
  · rw [contains_good G, if_neg hnotin]
  · intro hok
    have G' := goodState_insert_ok G hz hfit hok
    constructor
    · rw [contains_good G', if_pos (by simp)]
    · have h1 : (_cache_insert c s).1.count = (ls ++ [s]).length :=
        G'.2.2.2.2.1
      have h2 : c.count = ls.length := G.2.2.2.2.1
      rw [h1, h2]
      simp

theorem C2_contains_insert_witness :
    _cache_contains (freshCache 4096 1) [97] = CACHE_CONTAINS_FAILED ∧
    ((_cache_insert (freshCache 4096 1) [97]).2 = CACHE_INSERTION_SUCCESS →
      _cache_contains (_cache_insert (freshCache 4096 1) [97]).1 [97] =
        CACHE_CONTAINS_SUCCESS ∧
      (_cache_insert (freshCache 4096 1) [97]).1.count =
        (freshCache 4096 1).count + 1) :=
  C2_contains_insert _ _ _ reach_fresh_4096 (by decide) (by decide)
    (by simp) (by decide)

/-- C2 counterexample: in the reachable state `cNearFull` (one free arena
byte left), the string `[97, 98]` is non-empty and not stored and
`contains` is not-found before the insert — but the insert is rejected
for capacity, so `contains` is still not-found afterwards and `count`
does not increase, contradicting the claim as stated. -/
theorem C2_contains_insert_counterexample :
    Reach cNearFull [s4078] ∧
    ([97, 98] : List Nat) ≠ [] ∧
    ([97, 98] : List Nat) ∉ [s4078] ∧
    _cache_contains cNearFull [97, 98] = CACHE_CONTAINS_FAILED ∧
    _cache_contains (_cache_insert cNearFull [97, 98]).1 [97, 98] =
      CACHE_CONTAINS_FAILED ∧
    (_cache_insert cNearFull [97, 98]).1.count = cNearFull.count := by
  have G := reach_good reach_cNearFull
  have hstate := insert_fail_state ab_insert_cNearFull_fails
  refine ⟨reach_cNearFull, by decide, ab_not_in_cNearFull, ?_, ?_, ?_⟩
  · rw [contains_good G, if_neg ab_not_in_cNearFull]
  · rw [hstate, contains_good G, if_neg ab_not_in_cNearFull]
  · rw [hstate]

/-! ### Claim C3 -/

/-- C3: a successful insert of a NUL-free string writes exactly the
string's bytes at arena offsets `[length, length + strlen)` and nothing
else — in particular the terminator byte at `length + strlen` is left
unchanged and is zero only because of the zero-fill invariant — then
advances `length` by `strlen + 1` and `count` by 1. -/
theorem C3_insert_copies (c : Cache) (ls : List (List Nat)) (s : List Nat)
    (hR : Reach c ls) (hz : ∀ b ∈ s, b ≠ 0)
    (hfit : s.length + 1 + c.size < U64)
    (hok : (_cache_insert c s).2 = CACHE_INSERTION_SUCCESS) :
    (∀ i, i < s.length →
      byteAt (_cache_insert c s).1.arena (c.length + i) = s.getD i 0) ∧
    byteAt (_cache_insert c s).1.arena (c.length + s.length) =
      byteAt c.arena (c.length + s.length) ∧
    byteAt (_cache_insert c s).1.arena (c.length + s.length) = 0 ∧
    (∀ i, i < c.length →
      byteAt (_cache_insert c s).1.arena i = byteAt c.arena i) ∧
    (∀ i, c.length + s.length ≤ i →
      byteAt (_cache_insert c s).1.arena i = byteAt c.arena i) ∧
    (_cache_insert c s).1.length = c.length + s.length + 1 ∧
    (_cache_insert c s).1.count = c.count + 1 := by
  have G := reach_good hR
  have hz0 : ∀ i, c.length ≤ i → byteAt c.arena i = 0 :=
    fun i hi => byteAt_good_zero G hi
  have G' := goodState_insert_ok G hz hfit hok
  obtain ⟨-, -, -, hlen, hcount, -, -, harena⟩ := G
  obtain ⟨-, -, -, hlen', hcount', -, -, harena'⟩ := G'
  have hpacklen := packItems_length ls
  have hpl : (packItems ls).length = c.length := by
    rw [hpacklen]
    exact hlen.symm
  have hXdef : (_cache_insert c s).1.arena =
      packItems ls ++ (s ++ (0 :: List.replicate
        ((_cache_insert c s).1.size - cachehdrSize - occupied (ls ++ [s]))
        0)) := by
    rw [harena', packItems_snoc]
    simp
  have hnew0 : ∀ m, byteAt (s ++ (0 :: List.replicate
      ((_cache_insert c s).1.size - cachehdrSize - occupied (ls ++ [s]))
      0)) (s.length + m) = 0 := by
    intro m
    rw [byteAt_append_add]
    rw [show (0 :: List.replicate ((_cache_insert c s).1.size -
      cachehdrSize - occupied (ls ++ [s])) (0 : Nat)) = List.replicate
      (((_cache_insert c s).1.size - cachehdrSize -
        occupied (ls ++ [s])) + 1) 0 from (List.replicate_succ 0 _).symm]
    exact byteAt_replicate_zero _ _
  have hterm : byteAt (_cache_insert c s).1.arena (c.length + s.length) =
      0 := by
    rw [hXdef, show c.length + s.length =
      (packItems ls).length + s.length from by omega, byteAt_append_add]
    have := hnew0 0
    simpa using this
  refine ⟨?_, ?_, hterm, ?_, ?_, ?_, ?_⟩
  · intro i hi
    rw [hXdef, show c.length + i = (packItems ls).length + i from by omega,
      byteAt_append_add, byteAt_append_lt _ hi, byteAt_eq_getD]
  · rw [hterm, hz0 (c.length + s.length) (by omega)]
  · intro i hi
    rw [hXdef, byteAt_append_lt _ (by omega), harena,
      byteAt_append_lt _ (by omega)]
  · intro i hi
    rw [hz0 i (by omega), hXdef, show i =
      (packItems ls).length + (s.length + (i - c.length - s.length)) from
      by omega, byteAt_append_add]
    exact hnew0 _
  · rw [hlen', occupied_snoc, ← hlen]
    omega
  · rw [hcount', hcount]
    simp

theorem C3_insert_copies_witness :
    byteAt (_cache_insert (freshCache 4096 1) [97]).1.arena
      ((freshCache 4096 1).length + [97].length) = 0 ∧
    (_cache_insert (freshCache 4096 1) [97]).1.length =
      (freshCache 4096 1).length + [97].length + 1 ∧
    (_cache_insert (freshCache 4096 1) [97]).1.count =
      (freshCache 4096 1).count + 1 := by
  have h := C3_insert_copies (freshCache 4096 1) [] [97] reach_fresh_4096
    (by decide) (by decide)
    ((insert_code_iff _ _ (by decide) (by decide) (by decide)
      (by decide)).mpr ⟨by decide, by decide, by decide⟩)
  exact ⟨h.2.2.1, h.2.2.2.2.2.1, h.2.2.2.2.2.2⟩

/-! ### Claim C4 -/

/-- C4: for any realizable state and string, `_cache_insert` fails exactly
when the string is empty, the computed end-of-write address wraps around
the 64-bit address space, or the required bytes (`strlen + 1`) would push
the occupied length past the region size; a failed insert returns the
whole state unchanged (header fields and every arena byte), and failure
and success are the only outcomes — so any fitting insert succeeds. -/
theorem C4_insert_failure_iff (c : Cache) (s : List Nat) (hb : 0 < c.base)
    (hbs : c.base + c.size ≤ U64) (hl : c.length + cachehdrSize ≤ c.size)
    (hfit : s.length + 1 + c.size < U64) :
    ((_cache_insert c s).2 = CACHE_INSERTION_FAILED ↔
      (s = [] ∨
       U64 ≤ c.base + cachehdrSize + c.length + s.length + 1 ∨
       c.size < cachehdrSize + c.length + s.length + 1)) ∧
    ((_cache_insert c s).2 = CACHE_INSERTION_FAILED →
      (_cache_insert c s).1 = c) ∧
    ((_cache_insert c s).2 = CACHE_INSERTION_FAILED ∨
      (_cache_insert c s).2 = CACHE_INSERTION_SUCCESS) := by
  have hiff := insert_code_iff c s hb hbs hl hfit
  have hor := insert_code_or c s
  have hfe : ((_cache_insert c s).2 = CACHE_INSERTION_FAILED) ↔
      ¬ ((_cache_insert c s).2 = CACHE_INSERTION_SUCCESS) := by
    rcases hor with h | h <;> rw [h] <;> decide
  refine ⟨?_, ?_, hor.symm⟩
  · rw [hfe, hiff, show (s = []) ↔ s.length = 0 from
      List.length_eq_zero.symm]
    constructor
    · intro hn
      by_cases hA : s.length = 0
      · exact Or.inl hA
      · by_cases hB : c.base + cachehdrSize + c.length + s.length + 1 < U64
        · refine Or.inr (Or.inr ?_)
          by_contra hC
          exact hn ⟨hA, hB, by omega⟩
        · exact Or.inr (Or.inl (by omega))
    · rintro (h | h | h) ⟨hA, hB, hC⟩
      · exact hA h
      · omega
      · omega
  · intro hf
    exact insert_fail_state (by rw [hf]; decide)

theorem C4_insert_failure_iff_witness :
    ((_cache_insert (freshCache 4096 1) ([] : List Nat)).2 =
      CACHE_INSERTION_FAILED ↔
      (([] : List Nat) = [] ∨
       U64 ≤ (freshCache 4096 1).base + cachehdrSize +
         (freshCache 4096 1).length + ([] : List Nat).length + 1 ∨
       (freshCache 4096 1).size < cachehdrSize +
         (freshCache 4096 1).length + ([] : List Nat).length + 1)) ∧
    ((_cache_insert (freshCache 4096 1) ([] : List Nat)).2 =
      CACHE_INSERTION_FAILED →
      (_cache_insert (freshCache 4096 1) ([] : List Nat)).1 =
        freshCache 4096 1) :=
  ⟨(C4_insert_failure_iff (freshCache 4096 1) [] (by decide) (by decide)
      (by decide) (by decide)).1,
   (C4_insert_failure_iff (freshCache 4096 1) [] (by decide) (by decide)
      (by decide) (by decide)).2.1⟩

/-! ### Claim C5 -/

/-- C5: on every reachable state, the items the scan walks (as the debug
traversal enumerates them, one NUL-delimited run at a time from offset 0)
are exactly the successfully appended strings, and `_cache_contains`
reports found iff the NUL-free query equals one of them, not-found iff it
does not.  (The scan's model is a pure function of the state: the C
function performs no writes, so mutation-freedom is definitional.) -/
theorem C5_contains_scan (c : Cache) (ls : List (List Nat)) (q : List Nat)
    (hR : Reach c ls) (_hq : ∀ b ∈ q, b ≠ 0) :
    traverseFrom c.arena 0 = ls ∧
    (_cache_contains c q = CACHE_CONTAINS_SUCCESS ↔ q ∈ ls) ∧
    (_cache_contains c q = CACHE_CONTAINS_FAILED ↔ q ∉ ls) := by
  have G := reach_good hR
  refine ⟨traverse_good G, ?_, ?_⟩
  · rw [contains_good G]
    by_cases hm : q ∈ ls
    · rw [if_pos hm]
      simp [hm]
    · rw [if_neg hm]
      constructor
      · intro h
        exact absurd h (by decide)
      · intro h
        exact absurd h hm
  · rw [contains_good G]
    by_cases hm : q ∈ ls
    · rw [if_pos hm]
      constructor
      · intro h
        exact absurd h (by decide)
      · intro h
        exact absurd hm h
    · rw [if_neg hm]
      simp [hm]

theorem C5_contains_scan_witness :
    traverseFrom (freshCache 4096 1).arena 0 = [] ∧
    (_cache_contains (freshCache 4096 1) [97] = CACHE_CONTAINS_SUCCESS ↔
      [97] ∈ ([] : List (List Nat))) ∧
    (_cache_contains (freshCache 4096 1) [97] = CACHE_CONTAINS_FAILED ↔
      [97] ∉ ([] : List (List Nat))) :=
  C5_contains_scan _ _ _ reach_fresh_4096 (by decide)

/-! ### Claim C6 (corrected: a failed first call fails again, it does not
become "already present") -/

/-- C6 (amended): `cache_notcontains_insert` has exactly three outcomes —
already-present (`CACHE_CONTAINS_SUCCESS`), newly-inserted
(`CACHE_INSERTION_SUCCESS`) and insertion-failed
(`CACHE_INSERTION_FAILED`) — which are pairwise distinct result values.
For two consecutive calls with the same non-empty NUL-free string: if the
first call does not fail, the second reports already-present; if the
first call fails (capacity), the second fails again rather than
reporting already-present (this is where the unamended claim breaks, see
the counterexample); in every case the second call leaves `count`
unchanged. -/
theorem C6_insert_if_absent (c : Cache) (ls : List (List Nat)) (s : List Nat)
    (hR : Reach c ls) (hz : ∀ b ∈ s, b ≠ 0) (_hne : s ≠ [])
    (hfit : s.length + 1 + c.size < U64) :
    ((cache_notcontains_insert (some c) (some s)).2 =
        CACHE_CONTAINS_SUCCESS ∨
     (cache_notcontains_insert (some c) (some s)).2 =
        CACHE_INSERTION_SUCCESS ∨
     (cache_notcontains_insert (some c) (some s)).2 =
        CACHE_INSERTION_FAILED) ∧
    ((cache_notcontains_insert (some c) (some s)).2 ≠
        CACHE_INSERTION_FAILED →
      (cache_notcontains_insert
        (cache_notcontains_insert (some c) (some s)).1 (some s)).2 =
        CACHE_CONTAINS_SUCCESS) ∧
    ((cache_notcontains_insert (some c) (some s)).2 =
        CACHE_INSERTION_FAILED →
      (cache_notcontains_insert
        (cache_notcontains_insert (some c) (some s)).1 (some s)).2 =
        CACHE_INSERTION_FAILED) ∧
    (∀ c1 c2, (cache_notcontains_insert (some c) (some s)).1 = some c1 →
      (cache_notcontains_insert (some c1) (some s)).1 = some c2 →
      c2.count = c1.count) ∧
    (CACHE_CONTAINS_SUCCESS ≠ CACHE_INSERTION_SUCCESS ∧
     CACHE_CONTAINS_SUCCESS ≠ CACHE_INSERTION_FAILED ∧
     CACHE_INSERTION_SUCCESS ≠ CACHE_INSERTION_FAILED) := by
  have G := reach_good hR
  by_cases hmem : s ∈ ls
  · have hcs : _cache_contains c s = CACHE_CONTAINS_SUCCESS := by
      rw [contains_good G, if_pos hmem]
    have hni : cache_notcontains_insert (some c) (some s) =
        (some c, CACHE_CONTAINS_SUCCESS) := by
      simp only [cache_notcontains_insert]
      rw [hcs, if_neg (by decide :
        ¬ (CACHE_CONTAINS_SUCCESS = CACHE_CONTAINS_FAILED))]
    refine ⟨Or.inl (by rw [hni]), ?_, ?_, ?_, by decide, by decide,
      by decide⟩
    · intro _
      simp [hni]
    · intro habs
      rw [hni] at habs
      have habs' : CACHE_CONTAINS_SUCCESS = CACHE_INSERTION_FAILED := habs
      exact absurd habs' (by decide)
    · intro c1 c2 h1 h2
      rw [hni] at h1
      have hc1 : c = c1 := Option.some_inj.mp h1
      subst hc1
      rw [hni] at h2
      have hc2 : c = c2 := Option.some_inj.mp h2
      subst hc2
      rfl
  · have hcf : _cache_contains c s = CACHE_CONTAINS_FAILED := by
      rw [contains_good G, if_neg hmem]
    have hni : cache_notcontains_insert (some c) (some s) =
        (some (_cache_insert c s).1, (_cache_insert c s).2) := by
      simp only [cache_notcontains_insert]
      rw [hcf, if_pos rfl]
    rcases insert_code_or c s with hok | hfail
    · have G' := goodState_insert_ok G hz hfit hok
      have hcs' : _cache_contains (_cache_insert c s).1 s =
          CACHE_CONTAINS_SUCCESS := by
        rw [contains_good G', if_pos (by simp)]
      have hni2 : cache_notcontains_insert (some (_cache_insert c s).1)
          (some s) = (some (_cache_insert c s).1,
            CACHE_CONTAINS_SUCCESS) := by
        simp only [cache_notcontains_insert]
        rw [hcs', if_neg (by decide :
          ¬ (CACHE_CONTAINS_SUCCESS = CACHE_CONTAINS_FAILED))]
      refine ⟨Or.inr (Or.inl (by rw [hni]; exact hok)), ?_, ?_, ?_,
        by decide, by decide, by decide⟩
      · intro _
        simp [hni, hni2]
      · intro habs
        rw [hni] at habs
        rw [hok] at habs
        have habs' : CACHE_INSERTION_SUCCESS = CACHE_INSERTION_FAILED :=
          habs
        exact absurd habs' (by decide)
      · intro c1 c2 h1 h2
        rw [hni] at h1
        have hc1 : (_cache_insert c s).1 = c1 := Option.some_inj.mp h1
        subst hc1
        rw [hni2] at h2
        have hc2 : (_cache_insert c s).1 = c2 := Option.some_inj.mp h2
        subst hc2
        rfl
    · have hstate : (_cache_insert c s).1 = c :=
        insert_fail_state (by rw [hfail]; decide)
      refine ⟨Or.inr (Or.inr (by rw [hni]; exact hfail)), ?_, ?_, ?_,
        by decide, by decide, by decide⟩
      · intro hne2
        exact absurd (by rw [hni]; exact hfail) hne2
      · intro _
        simp [hni, hstate, hfail]
      · intro c1 c2 h1 h2
        rw [hni, hstate] at h1
        have hc1 : c = c1 := Option.some_inj.mp h1
        subst hc1
        rw [hni, hstate] at h2
        have hc2 : c = c2 := Option.some_inj.mp h2
        subst hc2
        rfl

theorem C6_insert_if_absent_witness :
    ((cache_notcontains_insert (some (freshCache 4096 1)) (some [97])).2 =
        CACHE_CONTAINS_SUCCESS ∨
     (cache_notcontains_insert (some (freshCache 4096 1)) (some [97])).2 =
        CACHE_INSERTION_SUCCESS ∨
     (cache_notcontains_insert (some (freshCache 4096 1)) (some [97])).2 =
        CACHE_INSERTION_FAILED) ∧
    ((cache_notcontains_insert (some (freshCache 4096 1)) (some [97])).2 ≠
        CACHE_INSERTION_FAILED →
      (cache_notcontains_insert
        (cache_notcontains_insert (some (freshCache 4096 1))
          (some [97])).1 (some [97])).2 = CACHE_CONTAINS_SUCCESS) :=
  ⟨(C6_insert_if_absent _ [] _ reach_fresh_4096 (by decide) (by decide)
      (by decide)).1,
   (C6_insert_if_absent _ [] _ reach_fresh_4096 (by decide) (by decide)
      (by decide)).2.1⟩

/-- C6 counterexample: in the reachable state `cNearFull` the non-empty
string `[97, 98]` does not fit; both consecutive `insert_if_absent` calls
return `CACHE_INSERTION_FAILED`, so the second call does NOT report
"already present" as the unamended claim requires. -/
theorem C6_insert_if_absent_counterexample :
    Reach cNearFull [s4078] ∧
    ([97, 98] : List Nat) ≠ [] ∧
    (cache_notcontains_insert (some cNearFull) (some [97, 98])).2 =
      CACHE_INSERTION_FAILED ∧
    (cache_notcontains_insert
      (cache_notcontains_insert (some cNearFull) (some [97, 98])).1
      (some [97, 98])).2 = CACHE_INSERTION_FAILED ∧
    CACHE_INSERTION_FAILED ≠ CACHE_CONTAINS_SUCCESS := by
  have G := reach_good reach_cNearFull
  have hcf : _cache_contains cNearFull [97, 98] = CACHE_CONTAINS_FAILED := by
    rw [contains_good G, if_neg ab_not_in_cNearFull]
  have hfail : (_cache_insert cNearFull [97, 98]).2 =
      CACHE_INSERTION_FAILED := by
    rcases insert_code_or cNearFull [97, 98] with hok | hf
    · exact absurd hok ab_insert_cNearFull_fails
    · exact hf
  have hstate : (_cache_insert cNearFull [97, 98]).1 = cNearFull :=
    insert_fail_state ab_insert_cNearFull_fails
  have hni : cache_notcontains_insert (some cNearFull) (some [97, 98]) =
      (some (_cache_insert cNearFull [97, 98]).1,
       (_cache_insert cNearFull [97, 98]).2) := by
    simp only [cache_notcontains_insert]
    rw [hcf, if_pos rfl]
  have hni' : cache_notcontains_insert (some cNearFull) (some [97, 98]) =
      (some cNearFull, CACHE_INSERTION_FAILED) := by
    rw [hni, hstate, hfail]
  refine ⟨reach_cNearFull, by decide, ?_, ?_, by decide⟩
  · rw [hni']
  · simp [hni']

/-! ### Claim C7 (corrected: the empty query is not rejected) -/

/-- C7 (amended): `cache_contains` rejects a null handle or a null query
with `CACHE_EINVAL` without scanning, but it does NOT reject the empty
string: `""` passes the `!item` null check, the scan runs, no stored run
(always nonzero-length) can match it, and the result is
`CACHE_CONTAINS_FAILED` — not the `CACHE_EINVAL` the claim promises. -/
theorem C7_query_validation (c : Cache) (q : Option (List Nat)) :
    cache_contains none q = CACHE_EINVAL ∧
    cache_contains (some c) none = CACHE_EINVAL ∧
    cache_contains (some c) (some []) = CACHE_CONTAINS_FAILED := by
  refine ⟨?_, rfl, containsFrom_empty_query c.arena 0⟩
  cases q with
  | none => rfl
  | some s => rfl

/-- C7 counterexample: on the freshly created 4096-byte store, the empty
query is answered with `CACHE_CONTAINS_FAILED` after a scan, not rejected
with `CACHE_EINVAL` as the claim states. -/
theorem C7_query_validation_counterexample :
    Reach (freshCache 4096 1) [] ∧
    cache_contains (some (freshCache 4096 1)) (some []) =
      CACHE_CONTAINS_FAILED ∧
    CACHE_CONTAINS_FAILED ≠ CACHE_EINVAL :=
  ⟨reach_fresh_4096, containsFrom_empty_query _ 0, by decide⟩

/-! ### Claim C8 (corrected: empty-string and capacity failures share one
code) -/

/-- C8 (amended): every rejected `_cache_insert` — whether the string is
empty or the insert would overflow the arena (wraparound included) —
returns the single code `CACHE_INSERTION_FAILED`; the two causes are not
distinguishable from each other, only from the null-argument
`CACHE_EINVAL` of the public wrappers and from success. -/
theorem C8_failure_codes (c : Cache) (s : List Nat)
    (h : (_cache_insert c s).2 ≠ CACHE_INSERTION_SUCCESS) :
    (_cache_insert c s).2 = CACHE_INSERTION_FAILED ∧
    CACHE_INSERTION_FAILED ≠ CACHE_EINVAL ∧
    CACHE_INSERTION_FAILED ≠ CACHE_INSERTION_SUCCESS := by
  refine ⟨?_, by decide, by decide⟩
  rcases insert_code_or c s with hok | hf
  · exact absurd hok h
  · exact hf

theorem C8_failure_codes_witness :
    (_cache_insert (freshCache 4096 1) []).2 ≠ CACHE_INSERTION_SUCCESS ∧
    (_cache_insert (freshCache 4096 1) []).2 = CACHE_INSERTION_FAILED :=
  ⟨by decide, (C8_failure_codes (freshCache 4096 1) [] (by decide)).1⟩

/-- C8 counterexample: on the freshly created 4096-byte store, the empty
string and a 4081-byte string (which exceeds the 4080-byte arena) are
rejected with the SAME result value `CACHE_INSERTION_FAILED`: the code
has no distinct `InvalidArgument` vs `CapacityExceeded` insert results. -/
theorem C8_failure_codes_counterexample :
    (_cache_insert (freshCache 4096 1) []).2 = CACHE_INSERTION_FAILED ∧
    (_cache_insert (freshCache 4096 1) (List.replicate 4081 97)).2 =
      CACHE_INSERTION_FAILED ∧
    (_cache_insert (freshCache 4096 1) []).2 =
      (_cache_insert (freshCache 4096 1) (List.replicate 4081 97)).2 := by
  have hlen81 : (List.replicate 4081 (97 : Nat)).length = 4081 := by
    rw [List.length_replicate]
  have hns : (_cache_insert (freshCache 4096 1)
      (List.replicate 4081 97)).2 ≠ CACHE_INSERTION_SUCCESS := by
    intro hok
    have hcond := (insert_code_iff _ _ (by decide) (by decide) (by decide)
      (by rw [hlen81]; decide)).mp hok
    rw [hlen81] at hcond
    obtain ⟨-, -, h3⟩ := hcond
    rw [freshCache_length, freshCache_size] at h3
    simp only [cachehdrSize] at h3
    omega
  have hf : (_cache_insert (freshCache 4096 1)
      (List.replicate 4081 97)).2 = CACHE_INSERTION_FAILED := by
    rcases insert_code_or (freshCache 4096 1)
      (List.replicate 4081 97) with hok | hfl
    · exact absurd hok hns
    · exact hfl
  refine ⟨by decide, hf, ?_⟩
  rw [hf]
  decide

/-! ### Claim C9 -/

/-- C9: `cache_map` validates its arguments first: with a null handle,
null file path, null lock name, zero size, or a size that is not a
multiple of the page size (the code checks the constant `0x1000`), it
returns `CACHE_EINVAL` with an empty I/O action trace — no lock creation,
no open, no resize, no map — for every environment of OS-call outcomes;
and `cache_unmap` on a null handle returns `CACHE_EINVAL` with none of
its three releases attempted. -/
theorem C9_attach_detach_validation (cache fname lockname : Option Unit)
    (size : Nat) (env : MapEnv) (uenv : UnmapEnv)
    (h : cache = none ∨ fname = none ∨ lockname = none ∨ size = 0 ∨
      size % 4096 ≠ 0) :
    cache_map cache fname lockname size env = (CACHE_EINVAL, [], none) ∧
    cache_unmap none uenv = (CACHE_EINVAL, []) := by
  constructor
  · unfold cache_map
    rw [if_pos h]
  · rfl

theorem C9_attach_detach_validation_witness :
    cache_map none none none 0
      ⟨true, true, true, true, true, 1, 0, 0, []⟩ =
      (CACHE_EINVAL, [], none) ∧
    cache_unmap none ⟨true, true, true⟩ = (CACHE_EINVAL, []) :=
  C9_attach_detach_validation none none none 0 _ _ (Or.inl rfl)

/-! ### Claim C10 (code bug: the scan can read one byte past the region) -/

/-- C10 is refuted by the code: from a fresh 4096-byte store, inserting a
4079-byte string is accepted (`16 + 0 + 4079 + 1 = 4096 ≤ 4096`) and
fills the arena to exactly its `4080 = region_size - header_size`-byte
capacity.  The scan of `contains`/debug-traverse then needs its stop test
at arena offset `length = 4080` — region offset `4096 = region_size`, one
byte PAST the mapped region (the model's arena list ends at 4080, where
`byteAt` returns the out-of-bounds default; the real process dereferences
unmapped memory).  On every reachable state the stop offset equals
`length` (`scanStop_good`), so the scan stays inside the region exactly
when `length < region_size - header_size` — the claim's "even when the
arena has been filled to exactly its capacity" is the case that fails. -/
theorem C10_scan_out_of_bounds :
    (_cache_insert (freshCache 4096 1) s4079).2 = CACHE_INSERTION_SUCCESS ∧
    Reach cExactFull [s4079] ∧
    cExactFull.size = 4096 ∧
    cExactFull.arena.length = 4080 ∧
    scanStop cExactFull.arena 0 = 4080 := by
  have G := reach_good reach_cExactFull
  refine ⟨s4079_insert_ok, reach_cExactFull, by rw [cExactFull_eq], ?_, ?_⟩
  · rw [goodState_arena_length G, cExactFull_eq]
    decide
  · rw [scanStop_good G, cExactFull_eq]

end Cro3Cache
